import Mathlib

/-!
Shallow embedding of `frame/staking/src/offchain_election.rs` (Substrate
offchain validator-election worker), together with proofs about its
rate-limiting guard, key selection, assignment pipeline and error handling.

Modelling conventions:
* `AccountId`, `Pubkey`, signature bytes and block numbers are `Nat`.
* Offchain persistent storage is an explicit map from string keys to an
  optional block number; the guard threads it, and `compute_offchain_election`
  receives and returns it so frame properties are statable.
* External collaborators (the phragmen solver, snapshot accessors, the
  balance-to-vote conversion, support/score computation, the compact encoder,
  the keystore signer and the transaction pool) are injected as fields of an
  `Env` record, mirroring the trait bounds of the Rust function.
* The Rust `?` operator on `Result`/`Option` is modelled by explicit `match`;
  the `.expect(..)` on winner index resolution is modelled by a dedicated
  `panicked` outcome, since it aborts rather than returning a typed error.
-/

/-- Account identity (`T::AccountId`). -/
abbrev AccountId := Nat

/-- A session/public key (`T::KeyType::Public`). -/
abbrev Pubkey := Nat

/-- A produced signature (opaque bytes). -/
abbrev Sig := Nat

/-- An opaque handle for the compact solution (`CompactOf<T>`); its internal
structure is produced by an external (macro-generated) encoder. -/
abbrev Compact := Nat

/-- An opaque handle for the support map built by `sp_phragmen::build_support_map`. -/
abbrev Support := Nat

/-- `PhragmenScore`: a fixed-size numeric triple. -/
abbrev Score := Nat × Nat × Nat

/-- Offchain local storage: a map from byte-string keys to an optionally
present block number (`StorageValueRef::persistent`). -/
abbrev Storage := String → Option Nat

/-- `OFFCHAIN_HEAD_DB`: the single fixed storage key of the election head. -/
def OFFCHAIN_HEAD_DB : String := "parity/staking-election/"

/-- `OFFCHAIN_REPEAT`: the fixed cadence threshold, in block-height units. -/
def OFFCHAIN_REPEAT : Nat := 5

/-- The guard-level failures of `set_check_offchain_execution_status`, one per
`&'static str` the Rust function can return: `"fork."`,
`"recently executed."` and `"failed to write to offchain db."`. -/
inductive GuardError where
  | Fork
  | RecentlyExecuted
  | WriteFailed
deriving DecidableEq, Repr

/-- Write `now` under the election-head key, leaving every other key alone. -/
def writeHead (db : Storage) (now : Nat) : Storage :=
  fun k => if k = OFFCHAIN_HEAD_DB then some now else db k

/-- `set_check_offchain_execution_status`: the rate-limiting guard.  Reads the
persisted head under `OFFCHAIN_HEAD_DB` and decides, mirroring the four match
arms of the Rust closure passed to `StorageValueRef::mutate`; in this
single-invocation model the compare-and-set write always succeeds, so the
`WriteFailed` arm (`Ok(Err(_))` in Rust) is never produced. -/
def set_check_offchain_execution_status (now : Nat) (db : Storage) :
    Except GuardError Unit × Storage :=
  let threshold := OFFCHAIN_REPEAT
  match db OFFCHAIN_HEAD_DB with
  | some head =>
      if now < head then
        (Except.error GuardError.Fork, db)
      else if now ≥ head ∧ now ≤ head + threshold then
        (Except.error GuardError.RecentlyExecuted, db)
      else if now > head + threshold then
        (Except.ok (), writeHead db now)
      else
        (Except.ok (), writeHead db now)
  | none => (Except.ok (), writeHead db now)

/-- The error enum `OffchainElectionError` of the worker. -/
inductive OffchainElectionError where
  | NoSigningKey
  | SigningFailed
  | ElectionFailed
  | SnapshotUnavailable
  | CompactFailed
deriving DecidableEq, Repr

/-- The terminal outcome of one worker invocation: `Ok(())`, a typed
`OffchainElectionError`, or a process abort via `.expect(..)` (modelled
explicitly so that panic-freedom is statable). -/
inductive WorkerOutcome where
  | ok
  | err (e : OffchainElectionError)
  | panicked (msg : String)
deriving DecidableEq, Repr

/-- `keys.iter().enumerate().find_map(|(index, val_key)| ...)`: scan the
authorized key list from position `i`, returning the first position paired
with the matching key. -/
def find_map_enum (key : Pubkey) : List Pubkey → Nat → Option (Nat × Pubkey)
  | [], _ => none
  | k :: rest, i => if k == key then some (i, k) else find_map_enum key rest (i + 1)

/-- The Key Selector: the candidate sequence iterated by the worker loop.
For each local key, find its first position in the authorized key list. -/
def candidates (local_keys keys : List Pubkey) : List (Nat × Pubkey) :=
  local_keys.filterMap (fun key => find_map_enum key keys 0)

/-- Modelled from the spec: `ValidatorIndex` is defined in the crate root (not
under `src/`); per the spec, winner indices are unsigned 16-bit values, so a
snapshot position is representable iff it is below `2 ^ 16`. -/
def VALIDATOR_INDEX_BOUND : Nat := 2 ^ 16

/-- Modelled from the spec: `NominatorIndex` is defined in the crate root (not
under `src/`); per the spec it is an unsigned 32-bit value. -/
def NOMINATOR_INDEX_BOUND : Nat := 2 ^ 32

/-- `snapshot.iter().position(|x| x == a)` followed by
`<usize as TryInto<..>>::try_into(i).ok()`: position of the first occurrence of
`a` in `snapshot`, provided it fits below `bound`. -/
def index_lookup (snapshot : List AccountId) (bound : Nat) (a : AccountId) : Option Nat :=
  match snapshot.findIdx? (fun x => x == a) with
  | some i => if i < bound then some i else none
  | none => none

/-- The `validator_index` closure of `compute_offchain_election`. -/
def validator_index (snapshot_validators : List AccountId) (a : AccountId) : Option Nat :=
  index_lookup snapshot_validators VALIDATOR_INDEX_BOUND a

/-- The `nominator_index` closure of `compute_offchain_election`. -/
def nominator_index (snapshot_nominators : List AccountId) (a : AccountId) : Option Nat :=
  index_lookup snapshot_nominators NOMINATOR_INDEX_BOUND a

/-- Modelled from the spec: the ratio accuracy of the fractional weight type
(parts-per-billion); the weight type itself lives in `sp_phragmen`, outside
`src/`. -/
def ACCURACY : Nat := 1000000000

/-- `sp_phragmen::Assignment`: an account plus (target, fractional-weight)
edges, the fractions being parts of `ACCURACY`. -/
structure Assignment where
  who : AccountId
  distribution : List (AccountId × Nat)
deriving DecidableEq, Repr

/-- `sp_phragmen::StakedAssignment`: same shape, absolute stake weights. -/
structure StakedAssignment where
  who : AccountId
  distribution : List (AccountId × Nat)
deriving DecidableEq, Repr

/-- Total staked weight carried by one staked assignment. -/
def stakedTotal (sa : StakedAssignment) : Nat :=
  (sa.distribution.map Prod.snd).sum

/-- Add `x` to the weight of the last edge of a distribution (no-op when the
distribution is empty). -/
def addToLast : List (AccountId × Nat) → Nat → List (AccountId × Nat)
  | [], _ => []
  | [p], x => [(p.1, p.2 + x)]
  | p :: q :: ps, x => p :: addToLast (q :: ps) x

/-- Modelled from the spec: `Assignment::into_staked(stake, fill)` of
`sp_phragmen` (not under `src/`): scale each fractional weight by the
nominator's converted stake, and when `fill` is set renormalize the rounding
leftover into the last edge, so the weights sum to the converted stake. -/
def Assignment.into_staked (a : Assignment) (stake : Nat) (fill : Bool) : StakedAssignment :=
  let dist := a.distribution.map (fun p => (p.1, p.2 * stake / ACCURACY))
  let s := (dist.map Prod.snd).sum
  ⟨a.who, if fill then addToLast dist (stake - s) else dist⟩

/-- Merge the weights of every edge pointing at the head edge's target, then
recurse on the remaining edges. -/
def mergeEdges : List (AccountId × Nat) → List (AccountId × Nat)
  | [] => []
  | (t, w) :: rest =>
      (t, w + ((rest.filter (fun p => p.1 == t)).map Prod.snd).sum) ::
        mergeEdges (rest.filter (fun p => p.1 != t))
termination_by l => l.length
decreasing_by
  simp only [List.length_cons]
  exact Nat.lt_succ_of_le (List.length_filter_le _ _)

/-- Modelled from the spec: `sp_phragmen::reduce` (not under `src/`) may remove
or merge edges but preserves each nominator's total staked weight; modelled as
merging duplicate-target edges within each assignment. -/
def reduce (l : List StakedAssignment) : List StakedAssignment :=
  l.map (fun sa => ⟨sa.who, mergeEdges sa.distribution⟩)

/-- Modelled from the spec: `StakedAssignment::into_assignment(true)` of
`sp_phragmen` (not under `src/`): divide absolute weights back into fractions
of the assignment's total. -/
def StakedAssignment.into_assignment (sa : StakedAssignment) : Assignment :=
  let total := stakedTotal sa
  ⟨sa.who, sa.distribution.map (fun p => (p.1, if total = 0 then 0 else p.2 * ACCURACY / total))⟩

/-- `sp_phragmen::PhragmenResult`: winners paired with a discarded score
artifact, plus per-nominator assignments. -/
structure PhragmenResult where
  winners : List (AccountId × Nat)
  assignments : List Assignment
deriving Repr

/-- The unsigned call `Call::submit_election_solution_unsigned(..)`. -/
structure Call where
  winners : List Nat
  compact : Compact
  score : Score
  index : Nat
  signature : Sig
deriving DecidableEq, Repr

/-- The `SignaturePayloadOf<T>` tuple `(winner indices, compact, score, key index)`. -/
abbrev SignaturePayload := List Nat × Compact × Score × Nat

/-- The external collaborators and runtime state `compute_offchain_election`
reads through its trait bounds: session keys, local keystore, snapshots, the
phragmen solver, balance conversion, support/score computation, the compact
encoder, the signer and the transaction pool. -/
structure Env where
  keys : List Pubkey
  local_keys : List Pubkey
  snapshot_validators : Option (List AccountId)
  snapshot_nominators : Option (List AccountId)
  do_phragmen : Option PhragmenResult
  slashable_balance_of : AccountId → Nat
  currency_to_vote : Nat → Nat
  build_support_map : List AccountId → List StakedAssignment → Support × Nat
  evaluate_support : Support → Score
  from_assignment : List Assignment → (AccountId → Option Nat) → (AccountId → Option Nat) →
    Except Unit Compact
  sign : Pubkey → SignaturePayload → Option Sig
  submit_unsigned : Call → Except Unit Unit

/-- The body of the worker's candidate loop, one recursive step per
`(index, pubkey)` candidate, paired with the number of per-candidate pipeline
executions performed.  Mirrors `compute_offchain_election`'s loop: the `?`
on snapshot access, solving, compact encoding *and signing* returns from the
whole function; only a failed `submit_unsigned` advances to the next
candidate; an unresolvable winner hits `.expect(..)` and panics. -/
def run_candidates (env : Env) : List (Nat × Pubkey) → WorkerOutcome × Nat
  | [] => (WorkerOutcome.err OffchainElectionError.NoSigningKey, 0)
  | (index, pubkey) :: rest =>
    match env.snapshot_validators with
    | none => (WorkerOutcome.err OffchainElectionError.SnapshotUnavailable, 1)
    | some snapshot_validators =>
    match env.snapshot_nominators with
    | none => (WorkerOutcome.err OffchainElectionError.SnapshotUnavailable, 1)
    | some snapshot_nominators =>
    match env.do_phragmen with
    | none => (WorkerOutcome.err OffchainElectionError.ElectionFailed, 1)
    | some pr =>
      let winners : List AccountId := pr.winners.map Prod.fst
      let staked : List StakedAssignment := pr.assignments.map (fun a =>
        let stake := env.currency_to_vote (env.slashable_balance_of a.who)
        a.into_staked stake true)
      let staked := reduce staked
      let support := (env.build_support_map winners staked).1
      let score := env.evaluate_support support
      let assignments_reduced := staked.map StakedAssignment.into_assignment
      match env.from_assignment assignments_reduced
          (nominator_index snapshot_nominators) (validator_index snapshot_validators) with
      | Except.error _ => (WorkerOutcome.err OffchainElectionError.CompactFailed, 1)
      | Except.ok compact =>
      match winners.mapM (validator_index snapshot_validators) with
      | none =>
          (WorkerOutcome.panicked
            "winners are chosen from the snapshot list; the must have index; qed", 1)
      | some winner_ixs =>
      match env.sign pubkey (winner_ixs, compact, score, index % 2 ^ 32) with
      | none => (WorkerOutcome.err OffchainElectionError.SigningFailed, 1)
      | some signature =>
        match env.submit_unsigned ⟨winner_ixs, compact, score, index % 2 ^ 32, signature⟩ with
        | Except.ok _ => (WorkerOutcome.ok, 1)
        | Except.error _ =>
            let r := run_candidates env rest
            (r.1, r.2 + 1)

/-- `compute_offchain_election`: build the candidate sequence from the local
keystore and the stored authority keys, then run the candidate loop.  It
receives the offchain storage only to make explicit that it neither reads nor
writes it. -/
def compute_offchain_election (env : Env) (db : Storage) : WorkerOutcome × Storage :=
  ((run_candidates env (candidates env.local_keys env.keys)).1, db)

/-- The empty offchain storage. -/
def db0 : Storage := fun _ => none

/-- Every winner reported by the solver resolves to a validator index: it
occurs in the validator snapshot at a position representable as a
`ValidatorIndex`. -/
def winners_resolvable (env : Env) : Prop :=
  ∀ sv pr, env.snapshot_validators = some sv → env.do_phragmen = some pr →
    ∀ w ∈ pr.winners.map Prod.fst, (validator_index sv w).isSome

/-- An environment whose pipeline succeeds end to end except that signing
fails for key `5` and succeeds for key `6`; both keys are authorized. -/
def envSignFailFirst : Env where
  keys := [5, 6]
  local_keys := [5, 6]
  snapshot_validators := some []
  snapshot_nominators := some []
  do_phragmen := some ⟨[], []⟩
  slashable_balance_of := fun _ => 0
  currency_to_vote := fun x => x
  build_support_map := fun _ _ => (0, 0)
  evaluate_support := fun _ => (0, 0, 0)
  from_assignment := fun _ _ _ => Except.ok 0
  sign := fun k _ => if k == 5 then none else some 0
  submit_unsigned := fun _ => Except.ok ()

/-- An environment whose signer always refuses. -/
def envSignNone : Env where
  keys := [5, 6]
  local_keys := [5, 6]
  snapshot_validators := some []
  snapshot_nominators := some []
  do_phragmen := some ⟨[], []⟩
  slashable_balance_of := fun _ => 0
  currency_to_vote := fun x => x
  build_support_map := fun _ _ => (0, 0)
  evaluate_support := fun _ => (0, 0, 0)
  from_assignment := fun _ _ _ => Except.ok 0
  sign := fun _ _ => none
  submit_unsigned := fun _ => Except.ok ()

/-- Three authorized local keys; signing fails for key `5` only, submission
always succeeds. -/
def envSignFailThree : Env where
  keys := [5, 6, 7]
  local_keys := [5, 6, 7]
  snapshot_validators := some []
  snapshot_nominators := some []
  do_phragmen := some ⟨[], []⟩
  slashable_balance_of := fun _ => 0
  currency_to_vote := fun x => x
  build_support_map := fun _ _ => (0, 0)
  evaluate_support := fun _ => (0, 0, 0)
  from_assignment := fun _ _ _ => Except.ok 0
  sign := fun k _ => if k == 5 then none else some 0
  submit_unsigned := fun _ => Except.ok ()

/-- Submission fails exactly for the call carrying key index `0`. -/
def envSubmitFailFirst : Env where
  keys := [5, 6, 7]
  local_keys := [5, 6, 7]
  snapshot_validators := some []
  snapshot_nominators := some []
  do_phragmen := some ⟨[], []⟩
  slashable_balance_of := fun _ => 0
  currency_to_vote := fun x => x
  build_support_map := fun _ _ => (0, 0)
  evaluate_support := fun _ => (0, 0, 0)
  from_assignment := fun _ _ _ => Except.ok 0
  sign := fun _ _ => some 0
  submit_unsigned := fun c => if c.index == 0 then Except.error () else Except.ok ()

/-- Submission always fails; everything upstream succeeds. -/
def envSubmitAlwaysFails : Env where
  keys := [5, 6]
  local_keys := [5, 6]
  snapshot_validators := some []
  snapshot_nominators := some []
  do_phragmen := some ⟨[], []⟩
  slashable_balance_of := fun _ => 0
  currency_to_vote := fun x => x
  build_support_map := fun _ _ => (0, 0)
  evaluate_support := fun _ => (0, 0, 0)
  from_assignment := fun _ _ _ => Except.ok 0
  sign := fun _ _ => some 0
  submit_unsigned := fun _ => Except.error ()

/-- The validator snapshot is missing. -/
def envNoSnapshotV : Env where
  keys := [5]
  local_keys := [5]
  snapshot_validators := none
  snapshot_nominators := some []
  do_phragmen := some ⟨[], []⟩
  slashable_balance_of := fun _ => 0
  currency_to_vote := fun x => x
  build_support_map := fun _ _ => (0, 0)
  evaluate_support := fun _ => (0, 0, 0)
  from_assignment := fun _ _ _ => Except.ok 0
  sign := fun _ _ => some 0
  submit_unsigned := fun _ => Except.ok ()

/-- The nominator snapshot is missing. -/
def envNoSnapshotN : Env where
  keys := [5]
  local_keys := [5]
  snapshot_validators := some []
  snapshot_nominators := none
  do_phragmen := some ⟨[], []⟩
  slashable_balance_of := fun _ => 0
  currency_to_vote := fun x => x
  build_support_map := fun _ _ => (0, 0)
  evaluate_support := fun _ => (0, 0, 0)
  from_assignment := fun _ _ _ => Except.ok 0
  sign := fun _ _ => some 0
  submit_unsigned := fun _ => Except.ok ()

/-- The phragmen solver returns no result. -/
def envNoElection : Env where
  keys := [5]
  local_keys := [5]
  snapshot_validators := some []
  snapshot_nominators := some []
  do_phragmen := none
  slashable_balance_of := fun _ => 0
  currency_to_vote := fun x => x
  build_support_map := fun _ _ => (0, 0)
  evaluate_support := fun _ => (0, 0, 0)
  from_assignment := fun _ _ _ => Except.ok 0
  sign := fun _ _ => some 0
  submit_unsigned := fun _ => Except.ok ()

/-- Compact encoding always fails. -/
def envCompactFails : Env where
  keys := [5]
  local_keys := [5]
  snapshot_validators := some []
  snapshot_nominators := some []
  do_phragmen := some ⟨[], []⟩
  slashable_balance_of := fun _ => 0
  currency_to_vote := fun x => x
  build_support_map := fun _ _ => (0, 0)
  evaluate_support := fun _ => (0, 0, 0)
  from_assignment := fun _ _ _ => Except.error ()
  sign := fun _ _ => some 0
  submit_unsigned := fun _ => Except.ok ()

/-- A validator snapshot whose interesting account sits at position `2 ^ 16`,
one past the largest representable `ValidatorIndex`. -/
def snapshotBig : List AccountId := List.replicate 65536 0 ++ [1]

/-- The solver elects account `1`, which is a member of `snapshotBig` but at
an unrepresentable position. -/
def envWinnerUnindexable : Env where
  keys := [5]
  local_keys := [5]
  snapshot_validators := some snapshotBig
  snapshot_nominators := some []
  do_phragmen := some ⟨[(1, 0)], []⟩
  slashable_balance_of := fun _ => 0
  currency_to_vote := fun x => x
  build_support_map := fun _ _ => (0, 0)
  evaluate_support := fun _ => (0, 0, 0)
  from_assignment := fun _ _ _ => Except.ok 0
  sign := fun _ _ => some 0
  submit_unsigned := fun _ => Except.ok ()

/-- A small healthy environment: winner `1` sits at position `0` of the
validator snapshot. -/
def envResolvable : Env where
  keys := [5]
  local_keys := [5]
  snapshot_validators := some [1]
  snapshot_nominators := some []
  do_phragmen := some ⟨[(1, 0)], []⟩
  slashable_balance_of := fun _ => 0
  currency_to_vote := fun x => x
  build_support_map := fun _ _ => (0, 0)
  evaluate_support := fun _ => (0, 0, 0)
  from_assignment := fun _ _ _ => Except.ok 0
  sign := fun _ _ => some 0
  submit_unsigned := fun _ => Except.ok ()

/-! ## Theorems -/

theorem writeHead_at_key (db : Storage) (now : Nat) :
    writeHead db now OFFCHAIN_HEAD_DB = some now := by
  simp [writeHead]

/-- C3: with a stored head present, the guard fails with `Fork` (no write)
when `now < head`, fails with `RecentlyExecuted` (no write) when
`head ≤ now ≤ head + OFFCHAIN_REPEAT`, and writes `now` and proceeds when
`now > head + OFFCHAIN_REPEAT`; the `Fork` case depends only on `now < head`,
never on the threshold. -/
theorem guard_decision_table (now head : Nat) (db : Storage)
    (hdb : db OFFCHAIN_HEAD_DB = some head) :
    (now < head →
      set_check_offchain_execution_status now db = (Except.error GuardError.Fork, db)) ∧
    (head ≤ now → now ≤ head + OFFCHAIN_REPEAT →
      set_check_offchain_execution_status now db
        = (Except.error GuardError.RecentlyExecuted, db)) ∧
    (head + OFFCHAIN_REPEAT < now →
      set_check_offchain_execution_status now db = (Except.ok (), writeHead db now) ∧
      (set_check_offchain_execution_status now db).2 OFFCHAIN_HEAD_DB = some now) := by
  refine ⟨fun h => ?_, fun h1 h2 => ?_, fun h => ?_⟩
  · simp only [set_check_offchain_execution_status, hdb]
    rw [if_pos h]
  · simp only [set_check_offchain_execution_status, hdb]
    rw [if_neg (by omega), if_pos ⟨h1, h2⟩]
  · simp only [set_check_offchain_execution_status, hdb]
    rw [if_neg (by omega), if_neg (by omega), if_pos h]
    exact ⟨rfl, writeHead_at_key db now⟩

/-- C3 witness: concrete instances of all three rows of the decision table. -/
theorem guard_decision_table_witness :
    ((fun _ => some 10 : Storage) OFFCHAIN_HEAD_DB = some 10) ∧
    set_check_offchain_execution_status 3 (fun _ => some 10)
      = (Except.error GuardError.Fork, fun _ => some 10) ∧
    set_check_offchain_execution_status 12 (fun _ => some 10)
      = (Except.error GuardError.RecentlyExecuted, fun _ => some 10) ∧
    set_check_offchain_execution_status 16 (fun _ => some 10)
      = (Except.ok (), writeHead (fun _ => some 10) 16) := by
  refine ⟨rfl, ?_, ?_, ?_⟩
  · exact (guard_decision_table 3 10 (fun _ => some 10) rfl).1 (by decide)
  · exact (guard_decision_table 12 10 (fun _ => some 10) rfl).2.1 (by decide) (by decide)
  · exact ((guard_decision_table 16 10 (fun _ => some 10) rfl).2.2 (by decide)).1

/-- C4: starting from absent stored state, the first guard call with `now1`
writes `now1` and proceeds, and a second call with any
`now1 < now2 ≤ now1 + OFFCHAIN_REPEAT` fails with `RecentlyExecuted`. -/
theorem guard_idempotence (now1 now2 : Nat) (db : Storage)
    (habs : db OFFCHAIN_HEAD_DB = none)
    (h12 : now1 < now2) (h2T : now2 ≤ now1 + OFFCHAIN_REPEAT) :
    set_check_offchain_execution_status now1 db = (Except.ok (), writeHead db now1) ∧
    (set_check_offchain_execution_status now2
        (set_check_offchain_execution_status now1 db).2).1
      = Except.error GuardError.RecentlyExecuted := by
  have h1 : set_check_offchain_execution_status now1 db = (Except.ok (), writeHead db now1) := by
    simp only [set_check_offchain_execution_status, habs]
  refine ⟨h1, ?_⟩
  rw [h1]
  have h2 : writeHead db now1 OFFCHAIN_HEAD_DB = some now1 := writeHead_at_key db now1
  have hstep :=
    (guard_decision_table now2 now1 (writeHead db now1) h2).2.1 (Nat.le_of_lt h12) h2T
  rw [hstep]

/-- C4 witness: heads absent, `now1 = 0`, `now2 = 1`. -/
theorem guard_idempotence_witness :
    set_check_offchain_execution_status 0 db0 = (Except.ok (), writeHead db0 0) ∧
    (set_check_offchain_execution_status 1 (set_check_offchain_execution_status 0 db0).2).1
      = Except.error GuardError.RecentlyExecuted :=
  guard_idempotence 0 1 db0 rfl (by decide) (by decide)

/-- C10: `compute_offchain_election` neither writes the persisted store (the
storage it returns is the storage it was given) nor reads it (its outcome is
independent of the storage); the guard touches no key other than
`OFFCHAIN_HEAD_DB`, which is exactly the byte string
`"parity/staking-election/"`; and the cadence threshold is exactly `5`. -/
theorem worker_storage_frame (env : Env) (db : Storage) (now : Nat) (k : String)
    (hk : k ≠ OFFCHAIN_HEAD_DB) :
    (compute_offchain_election env db).2 = db ∧
    (∀ db' : Storage,
      (compute_offchain_election env db).1 = (compute_offchain_election env db').1) ∧
    (set_check_offchain_execution_status now db).2 k = db k ∧
    OFFCHAIN_HEAD_DB = "parity/staking-election/" ∧
    OFFCHAIN_REPEAT = 5 := by
  refine ⟨rfl, fun db' => rfl, ?_, rfl, rfl⟩
  have hwh : writeHead db now k = db k := by simp [writeHead, hk]
  simp only [set_check_offchain_execution_status]
  split
  all_goals first
    | exact hwh
    | (split_ifs <;> first | rfl | exact hwh)

/-- C10 witness: a concrete foreign key is untouched by the guard. -/
theorem worker_storage_frame_witness :
    (compute_offchain_election envResolvable db0).2 = db0 ∧
    (set_check_offchain_execution_status 0 db0).2 "other-key" = db0 "other-key" :=
  ⟨(worker_storage_frame envResolvable db0 0 "other-key" (by decide)).1,
   (worker_storage_frame envResolvable db0 0 "other-key" (by decide)).2.2.1⟩

theorem find_map_enum_eq (key : Pubkey) :
    ∀ (keys : List Pubkey) (i : Nat),
      find_map_enum key keys i
        = (keys.findIdx? (fun k => k == key) i).map (fun j => (j, key))
  | [], _ => rfl
  | k :: rest, i => by
      rw [find_map_enum, List.findIdx?_cons]
      by_cases h : (k == key) = true
      · rw [if_pos h, if_pos h]
        have : k = key := beq_iff_eq.mp h
        subst this
        rfl
      · rw [if_neg h, if_neg h]
        exact find_map_enum_eq key rest (i + 1)

theorem findIdx?_eq_some_of_mem {key : Pubkey} {keys : List Pubkey} (h : key ∈ keys) :
    ∃ j, keys.findIdx? (fun k => k == key) = some j := by
  cases hf : keys.findIdx? (fun k => k == key) with
  | some j => exact ⟨j, rfl⟩
  | none =>
      have := List.findIdx?_eq_none_iff.mp hf key h
      simp at this

theorem candidates_closed_form (local_keys keys : List Pubkey) :
    candidates local_keys keys
      = (local_keys.filter (fun k => decide (k ∈ keys))).map
          (fun k => (keys.indexOf k, k)) := by
  induction local_keys with
  | nil => rfl
  | cons k rest ih =>
      simp only [candidates, List.filterMap_cons] at *
      rw [find_map_enum_eq]
      by_cases hk : k ∈ keys
      · obtain ⟨j, hj⟩ := findIdx?_eq_some_of_mem hk
        have hidx : keys.indexOf k = j := by
          have hfi := List.findIdx_eq_findIdx? (fun x => x == k) keys
          rw [hj] at hfi
          exact hfi
        rw [hj]
        simp [List.filter_cons, hk, hidx, ih]
      · have hnone : keys.findIdx? (fun x => x == k) = none := by
          apply List.findIdx?_eq_none_iff.mpr
          intro x hx
          simp only [beq_eq_false_iff_ne, ne_eq]
          intro hxk
          exact hk (hxk ▸ hx)
        rw [hnone]
        simp only [Option.map_none, List.filter_cons]
        rw [decide_eq_false hk]
        exact ih

/-- C7: the candidate sequence enumerates the local keys in order, pairing
each locally held identity that is also authorized with the position of its
first occurrence in the authorized list; with a duplicate-free local key set
no identity appears twice; the sequence is empty when the intersection is
empty; and the spec's concrete example holds. -/
theorem key_selector_order (local_keys keys : List Pubkey) (hnd : local_keys.Nodup) :
    candidates local_keys keys
      = (local_keys.filter (fun k => decide (k ∈ keys))).map
          (fun k => (keys.indexOf k, k)) ∧
    ((candidates local_keys keys).map Prod.snd).Nodup ∧
    ((∀ k ∈ local_keys, k ∉ keys) → candidates local_keys keys = []) ∧
    candidates [3, 1] [1, 2, 3] = [(2, 3), (0, 1)] := by
  refine ⟨candidates_closed_form local_keys keys, ?_, ?_, by decide⟩
  · rw [candidates_closed_form]
    have hsnd : ((local_keys.filter (fun k => decide (k ∈ keys))).map
        (fun k => ((keys.indexOf k : Nat), k))).map Prod.snd
        = local_keys.filter (fun k => decide (k ∈ keys)) := by
      rw [List.map_map]
      have hcomp : (Prod.snd ∘ fun k : Pubkey => ((keys.indexOf k : Nat), k)) = id := rfl
      rw [hcomp, List.map_id]
    rw [hsnd]
    exact List.Nodup.filter _ hnd
  · intro hdisj
    rw [candidates_closed_form]
    have : local_keys.filter (fun k => decide (k ∈ keys)) = [] := by
      apply List.filter_eq_nil_iff.mpr
      intro a ha
      simpa using hdisj a ha
    rw [this]
    rfl

/-- C7 witness: the spec's example, with distinct local keys. -/
theorem key_selector_order_witness :
    candidates [3, 1] [1, 2, 3]
      = (([3, 1].filter (fun k => decide (k ∈ [1, 2, 3]))).map
          (fun k => (([1, 2, 3] : List Pubkey).indexOf k, k))) ∧
    candidates [3, 1] [1, 2, 3] = [(2, 3), (0, 1)] :=
  ⟨(key_selector_order [3, 1] [1, 2, 3] (by decide)).1,
   (key_selector_order [3, 1] [1, 2, 3] (by decide)).2.2.2⟩

/-- C2: with at least one candidate, a missing validator or nominator
snapshot, a solver returning no result, or a failing compact encoding each
aborts the whole search immediately: the worker's terminal outcome is the
corresponding error after exactly one pipeline execution, regardless of how
many candidates remain. -/
theorem fatal_errors_abort (env : Env) (db : Storage) (index : Nat) (pubkey : Pubkey)
    (rest : List (Nat × Pubkey))
    (hc : candidates env.local_keys env.keys = (index, pubkey) :: rest) :
    (env.snapshot_validators = none →
      (compute_offchain_election env db).1
          = WorkerOutcome.err OffchainElectionError.SnapshotUnavailable ∧
      run_candidates env ((index, pubkey) :: rest)
          = (WorkerOutcome.err OffchainElectionError.SnapshotUnavailable, 1)) ∧
    (∀ sv, env.snapshot_validators = some sv → env.snapshot_nominators = none →
      (compute_offchain_election env db).1
          = WorkerOutcome.err OffchainElectionError.SnapshotUnavailable ∧
      run_candidates env ((index, pubkey) :: rest)
          = (WorkerOutcome.err OffchainElectionError.SnapshotUnavailable, 1)) ∧
    (∀ sv sn, env.snapshot_validators = some sv → env.snapshot_nominators = some sn →
      env.do_phragmen = none →
      (compute_offchain_election env db).1
          = WorkerOutcome.err OffchainElectionError.ElectionFailed ∧
      run_candidates env ((index, pubkey) :: rest)
          = (WorkerOutcome.err OffchainElectionError.ElectionFailed, 1)) ∧
    (∀ sv sn pr, env.snapshot_validators = some sv → env.snapshot_nominators = some sn →
      env.do_phragmen = some pr →
      (∀ as ni vi, env.from_assignment as ni vi = Except.error ()) →
      (compute_offchain_election env db).1
          = WorkerOutcome.err OffchainElectionError.CompactFailed ∧
      run_candidates env ((index, pubkey) :: rest)
          = (WorkerOutcome.err OffchainElectionError.CompactFailed, 1)) := by
  refine ⟨fun h1 => ?_, fun sv h1 h2 => ?_, fun sv sn h1 h2 h3 => ?_,
    fun sv sn pr h1 h2 h3 h4 => ?_⟩
  · have hrun : run_candidates env ((index, pubkey) :: rest)
        = (WorkerOutcome.err OffchainElectionError.SnapshotUnavailable, 1) := by
      simp only [run_candidates, h1]
    exact ⟨by simp only [compute_offchain_election, hc, hrun], hrun⟩
  · have hrun : run_candidates env ((index, pubkey) :: rest)
        = (WorkerOutcome.err OffchainElectionError.SnapshotUnavailable, 1) := by
      simp only [run_candidates, h1, h2]
    exact ⟨by simp only [compute_offchain_election, hc, hrun], hrun⟩
  · have hrun : run_candidates env ((index, pubkey) :: rest)
        = (WorkerOutcome.err OffchainElectionError.ElectionFailed, 1) := by
      simp only [run_candidates, h1, h2, h3]
    exact ⟨by simp only [compute_offchain_election, hc, hrun], hrun⟩
  · have hrun : run_candidates env ((index, pubkey) :: rest)
        = (WorkerOutcome.err OffchainElectionError.CompactFailed, 1) := by
      simp only [run_candidates, h1, h2, h3, h4]
    exact ⟨by simp only [compute_offchain_election, hc, hrun], hrun⟩

/-- C2 witness: one concrete environment per fatal branch. -/
theorem fatal_errors_abort_witness :
    run_candidates envNoSnapshotV [(0, 5)]
      = (WorkerOutcome.err OffchainElectionError.SnapshotUnavailable, 1) ∧
    run_candidates envNoSnapshotN [(0, 5)]
      = (WorkerOutcome.err OffchainElectionError.SnapshotUnavailable, 1) ∧
    run_candidates envNoElection [(0, 5)]
      = (WorkerOutcome.err OffchainElectionError.ElectionFailed, 1) ∧
    run_candidates envCompactFails [(0, 5)]
      = (WorkerOutcome.err OffchainElectionError.CompactFailed, 1) :=
  ⟨((fatal_errors_abort envNoSnapshotV db0 0 5 [] (by decide)).1 rfl).2,
   ((fatal_errors_abort envNoSnapshotN db0 0 5 [] (by decide)).2.1 [] rfl rfl).2,
   ((fatal_errors_abort envNoElection db0 0 5 [] (by decide)).2.2.1 [] [] rfl rfl rfl).2,
   ((fatal_errors_abort envCompactFails db0 0 5 [] (by decide)).2.2.2 [] [] ⟨[], []⟩
      rfl rfl rfl (fun _ _ _ => rfl)).2⟩

/-- C1 (amended): if the pipeline reaches signing and the key yields no
signature, the worker terminates the entire search immediately with
`SigningFailed` after one pipeline execution; later candidates are never
attempted. -/
theorem signing_failure_aborts (env : Env) (db : Storage) (index : Nat) (pubkey : Pubkey)
    (rest : List (Nat × Pubkey)) (sv sn : List AccountId) (pr : PhragmenResult)
    (c : Compact) (wi : List Nat)
    (hc : candidates env.local_keys env.keys = (index, pubkey) :: rest)
    (h1 : env.snapshot_validators = some sv)
    (h2 : env.snapshot_nominators = some sn)
    (h3 : env.do_phragmen = some pr)
    (h4 : ∀ as ni vi, env.from_assignment as ni vi = Except.ok c)
    (h5 : (pr.winners.map Prod.fst).mapM (validator_index sv) = some wi)
    (h6 : ∀ k p, env.sign k p = none) :
    (compute_offchain_election env db).1
        = WorkerOutcome.err OffchainElectionError.SigningFailed ∧
    run_candidates env ((index, pubkey) :: rest)
        = (WorkerOutcome.err OffchainElectionError.SigningFailed, 1) := by
  have hrun : run_candidates env ((index, pubkey) :: rest)
      = (WorkerOutcome.err OffchainElectionError.SigningFailed, 1) := by
    simp only [run_candidates, h1, h2, h3, h4, h5, h6]
  exact ⟨by simp only [compute_offchain_election, hc, hrun], hrun⟩

/-- C1 counterexample: in `envSignFailFirst` signing fails for the first
candidate while candidate `(1, 6)` remains and would succeed end to end, yet
the worker's terminal outcome is `SigningFailed`: it does not advance to the
next candidate. -/
theorem signing_failure_aborts_cex :
    candidates envSignFailFirst.local_keys envSignFailFirst.keys = [(0, 5), (1, 6)] ∧
    (compute_offchain_election envSignFailFirst db0).1
        = WorkerOutcome.err OffchainElectionError.SigningFailed ∧
    (run_candidates envSignFailFirst [(1, 6)]).1 = WorkerOutcome.ok := by
  refine ⟨by decide, by decide, by decide⟩

/-- C1 witness: a signer that always refuses, two authorized candidates. -/
theorem signing_failure_aborts_witness :
    (compute_offchain_election envSignNone db0).1
        = WorkerOutcome.err OffchainElectionError.SigningFailed ∧
    run_candidates envSignNone [(0, 5), (1, 6)]
        = (WorkerOutcome.err OffchainElectionError.SigningFailed, 1) :=
  signing_failure_aborts envSignNone db0 0 5 [(1, 6)] [] [] ⟨[], []⟩ 0 []
    (by decide) rfl rfl rfl (fun _ _ _ => rfl) rfl (fun _ _ => rfl)

/-- C5 (amended): when every pipeline step succeeds, the first candidate's
submission fails and the second candidate's submission succeeds, the worker
returns success after exactly two pipeline executions and attempts no third
candidate (its outcome does not depend on the remaining candidates); in
general it stops at the first successful submission. -/
theorem first_success_stops (env : Env) (db : Storage) (pk1 pk2 : Pubkey)
    (rest : List (Nat × Pubkey)) (sv sn : List AccountId) (pr : PhragmenResult)
    (c : Compact) (wi : List Nat) (s : Sig)
    (hc : candidates env.local_keys env.keys = (0, pk1) :: (1, pk2) :: rest)
    (h1 : env.snapshot_validators = some sv)
    (h2 : env.snapshot_nominators = some sn)
    (h3 : env.do_phragmen = some pr)
    (h4 : ∀ as ni vi, env.from_assignment as ni vi = Except.ok c)
    (h5 : (pr.winners.map Prod.fst).mapM (validator_index sv) = some wi)
    (h6 : ∀ k p, env.sign k p = some s)
    (h7 : ∀ call : Call, env.submit_unsigned call
        = if call.index == 0 then Except.error () else Except.ok ()) :
    (compute_offchain_election env db).1 = WorkerOutcome.ok ∧
    run_candidates env ((0, pk1) :: (1, pk2) :: rest) = (WorkerOutcome.ok, 2) := by
  have hrun2 : run_candidates env ((1, pk2) :: rest) = (WorkerOutcome.ok, 1) := by
    simp only [run_candidates, h1, h2, h3, h4, h5, h6, h7]
    norm_num
  have hrun : run_candidates env ((0, pk1) :: (1, pk2) :: rest) = (WorkerOutcome.ok, 2) := by
    simp only [run_candidates, h1, h2, h3, h4, h5, h6, h7, hrun2]
    norm_num
  exact ⟨by simp only [compute_offchain_election, hc, hrun], hrun⟩

/-- C5 counterexample: in `envSignFailThree` the first candidate fails at
signing and the second candidate would succeed, but the worker does not
return success after two pipeline executions: it aborts after one, with
`SigningFailed`. -/
theorem first_success_stops_cex :
    candidates envSignFailThree.local_keys envSignFailThree.keys = [(0, 5), (1, 6), (2, 7)] ∧
    (run_candidates envSignFailThree [(1, 6)]).1 = WorkerOutcome.ok ∧
    run_candidates envSignFailThree [(0, 5), (1, 6), (2, 7)]
        = (WorkerOutcome.err OffchainElectionError.SigningFailed, 1) := by
  refine ⟨by decide, by decide, by decide⟩

/-- C5 witness: submission fails exactly for the first key index; three
candidates are available. -/
theorem first_success_stops_witness :
    (compute_offchain_election envSubmitFailFirst db0).1 = WorkerOutcome.ok ∧
    run_candidates envSubmitFailFirst [(0, 5), (1, 6), (2, 7)] = (WorkerOutcome.ok, 2) :=
  first_success_stops envSubmitFailFirst db0 5 6 [(2, 7)] [] [] ⟨[], []⟩ 0 [] 0
    (by decide) rfl rfl rfl (fun _ _ _ => rfl) rfl (fun _ _ => rfl) (fun _ => rfl)

/-- C8: an empty candidate sequence terminates with `NoSigningKey`; and when
every pipeline step succeeds but every submission fails, a failed submission
is never the terminal error: the worker advances through all candidates and
terminates with exactly `NoSigningKey` after trying every one of them. -/
theorem exhaustion_no_signing_key (env : Env) (sv sn : List AccountId) (pr : PhragmenResult)
    (c : Compact) (wi : List Nat) (s : Sig)
    (h1 : env.snapshot_validators = some sv)
    (h2 : env.snapshot_nominators = some sn)
    (h3 : env.do_phragmen = some pr)
    (h4 : ∀ as ni vi, env.from_assignment as ni vi = Except.ok c)
    (h5 : (pr.winners.map Prod.fst).mapM (validator_index sv) = some wi)
    (h6 : ∀ k p, env.sign k p = some s)
    (h7 : ∀ call : Call, env.submit_unsigned call = Except.error ()) :
    run_candidates env [] = (WorkerOutcome.err OffchainElectionError.NoSigningKey, 0) ∧
    ∀ cands : List (Nat × Pubkey),
      run_candidates env cands
        = (WorkerOutcome.err OffchainElectionError.NoSigningKey, cands.length) := by
  refine ⟨rfl, ?_⟩
  intro cands
  induction cands with
  | nil => rfl
  | cons cand rest ih =>
      obtain ⟨index, pubkey⟩ := cand
      simp only [run_candidates, h1, h2, h3, h4, h5, h6, h7, ih, List.length_cons]

/-- C8 witness: two authorized candidates, submission always failing. -/
theorem exhaustion_no_signing_key_witness :
    run_candidates envSubmitAlwaysFails []
      = (WorkerOutcome.err OffchainElectionError.NoSigningKey, 0) ∧
    run_candidates envSubmitAlwaysFails [(0, 5), (1, 6)]
      = (WorkerOutcome.err OffchainElectionError.NoSigningKey, 2) :=
  ⟨(exhaustion_no_signing_key envSubmitAlwaysFails [] [] ⟨[], []⟩ 0 [] 0
      rfl rfl rfl (fun _ _ _ => rfl) rfl (fun _ _ => rfl) (fun _ => rfl)).1,
   (exhaustion_no_signing_key envSubmitAlwaysFails [] [] ⟨[], []⟩ 0 [] 0
      rfl rfl rfl (fun _ _ _ => rfl) rfl (fun _ _ => rfl) (fun _ => rfl)).2 [(0, 5), (1, 6)]⟩

theorem mapM_eq_some_of_forall_isSome (f : AccountId → Option Nat) :
    ∀ l : List AccountId, (∀ a ∈ l, (f a).isSome) → ∃ r, l.mapM f = some r
  | [], _ => ⟨[], rfl⟩
  | a :: l, h => by
      obtain ⟨b, hb⟩ := Option.isSome_iff_exists.mp (h a (by simp))
      obtain ⟨r, hr⟩ :=
        mapM_eq_some_of_forall_isSome f l (fun x hx => h x (by simp [hx]))
      refine ⟨b :: r, ?_⟩
      rw [List.mapM_cons, hb, hr]
      rfl

theorem run_candidates_panic_inv (env : Env) :
    ∀ (cands : List (Nat × Pubkey)) (msg : String),
      (run_candidates env cands).1 = WorkerOutcome.panicked msg →
      ∃ sv pr, env.snapshot_validators = some sv ∧ env.do_phragmen = some pr ∧
        (pr.winners.map Prod.fst).mapM (validator_index sv) = none
  | [], msg => by
      intro h
      simp [run_candidates] at h
  | (index, pubkey) :: rest, msg => by
      intro h
      simp only [run_candidates] at h
      split at h
      · simp at h
      next sv heq1 =>
        split at h
        · simp at h
        next sn heq2 =>
          split at h
          · simp at h
          next pr heq3 =>
            split at h
            · simp at h
            next compact heq4 =>
              split at h
              next heq5 =>
                exact ⟨sv, pr, heq1, heq3, heq5⟩
              next wi heq5 =>
                split at h
                · simp at h
                next s heq6 =>
                  split at h
                  · simp at h
                  next heq7 =>
                    exact run_candidates_panic_inv env rest msg h

/-- C6 (amended): provided every winner reported by the solver resolves to a
validator index — it occurs in the validator snapshot at a position
representable as a `ValidatorIndex` — no operation of the core panics: the
worker never reaches the `.expect(..)` branch on any candidate list or
storage, and every guard outcome is a typed `Ok`/`Err` value.  (Membership in
the snapshot alone is not a sufficient precondition; see the
counterexample.) -/
theorem no_panic (env : Env) (hres : winners_resolvable env) :
    (∀ (cands : List (Nat × Pubkey)) (msg : String),
      (run_candidates env cands).1 ≠ WorkerOutcome.panicked msg) ∧
    (∀ (db : Storage) (msg : String),
      (compute_offchain_election env db).1 ≠ WorkerOutcome.panicked msg) ∧
    (∀ (now : Nat) (db : Storage),
      (set_check_offchain_execution_status now db).1 = Except.ok ()
        ∨ ∃ e, (set_check_offchain_execution_status now db).1 = Except.error e) := by
  have hmain : ∀ (cands : List (Nat × Pubkey)) (msg : String),
      (run_candidates env cands).1 ≠ WorkerOutcome.panicked msg := by
    intro cands msg h
    obtain ⟨sv, pr, h1, h2, h3⟩ := run_candidates_panic_inv env cands msg h
    obtain ⟨r, hr⟩ := mapM_eq_some_of_forall_isSome (validator_index sv)
      (pr.winners.map Prod.fst) (hres sv pr h1 h2)
    rw [hr] at h3
    exact Option.noConfusion h3
  refine ⟨hmain, fun db msg => hmain _ msg, fun now db => ?_⟩
  cases hg : (set_check_offchain_execution_status now db).1 with
  | ok u =>
      cases u
      exact Or.inl rfl
  | error e => exact Or.inr ⟨e, rfl⟩

theorem findIdx?_replicate_append :
    ∀ n i : Nat,
      List.findIdx? (fun x => x == 1) (List.replicate n (0 : AccountId) ++ [1]) i
        = some (i + n)
  | 0, i => by
      simp [List.findIdx?_cons]
  | n + 1, i => by
      rw [List.replicate_succ, List.cons_append, List.findIdx?_cons]
      have hcond : ((0 : AccountId) == 1) = false := by decide
      rw [hcond]
      simp only [Bool.false_eq_true, if_false]
      rw [findIdx?_replicate_append n (i + 1)]
      congr 1
      omega

theorem validator_index_snapshotBig_one : validator_index snapshotBig 1 = none := by
  simp only [validator_index, index_lookup, snapshotBig]
  rw [findIdx?_replicate_append 65536 0]
  norm_num [VALIDATOR_INDEX_BOUND]

theorem mapM_winner_unindexable :
    List.mapM (validator_index snapshotBig)
      (List.map Prod.fst [((1 : AccountId), (0 : Nat))]) = none := by
  have hm : (List.map Prod.fst [((1 : AccountId), (0 : Nat))]) = [1] := rfl
  rw [hm, List.mapM_cons, validator_index_snapshotBig_one]
  rfl

theorem winner_panic_general (env : Env) (index : Nat) (pubkey : Pubkey)
    (rest : List (Nat × Pubkey)) (sv sn : List AccountId) (pr : PhragmenResult) (c : Compact)
    (h1 : env.snapshot_validators = some sv)
    (h2 : env.snapshot_nominators = some sn)
    (h3 : env.do_phragmen = some pr)
    (h4 : ∀ as ni vi, env.from_assignment as ni vi = Except.ok c)
    (h5 : (pr.winners.map Prod.fst).mapM (validator_index sv) = none) :
    run_candidates env ((index, pubkey) :: rest)
      = (WorkerOutcome.panicked
          "winners are chosen from the snapshot list; the must have index; qed", 1) := by
  simp only [run_candidates, h1, h2, h3, h4, h5]

/-- C6 counterexample: in `envWinnerUnindexable` every winner is a member of
the validator snapshot, yet the worker reaches the panicking `.expect(..)`
branch, because the winner's snapshot position does not fit a
`ValidatorIndex`: the claim's membership precondition does not rule out the
panic. -/
theorem no_panic_cex :
    (∀ w ∈ (([((1 : AccountId), (0 : Nat))]).map Prod.fst), w ∈ snapshotBig) ∧
    envWinnerUnindexable.do_phragmen = some ⟨[(1, 0)], []⟩ ∧
    (compute_offchain_election envWinnerUnindexable db0).1
      = WorkerOutcome.panicked
          "winners are chosen from the snapshot list; the must have index; qed" := by
  refine ⟨?_, rfl, ?_⟩
  · intro w hw
    simp only [List.map_cons, List.map_nil, List.mem_singleton] at hw
    subst hw
    exact List.mem_append.mpr (Or.inr (by simp))
  · have hc : candidates envWinnerUnindexable.local_keys envWinnerUnindexable.keys
        = [(0, 5)] := by
      show candidates [5] [5] = [(0, 5)]
      decide
    have hrun := winner_panic_general envWinnerUnindexable 0 5 [] snapshotBig []
      ⟨[(1, 0)], []⟩ 0 rfl rfl rfl (fun _ _ _ => rfl) mapM_winner_unindexable
    simp only [compute_offchain_election, hc, hrun]

/-- C6 witness for the amended theorem: a small environment whose single
winner sits at position `0`, hence resolvable; no panic arises. -/
theorem no_panic_witness :
    winners_resolvable envResolvable ∧
    (run_candidates envResolvable [(0, 5)]).1 ≠ WorkerOutcome.panicked "boom" := by
  have hres : winners_resolvable envResolvable := by
    intro sv pr h1 h2 w hw
    simp only [envResolvable] at h1 h2
    have hsv : sv = [1] := (Option.some.inj h1).symm
    have hpr : pr = ⟨[(1, 0)], []⟩ := (Option.some.inj h2).symm
    subst hsv
    subst hpr
    simp only [List.map_cons, List.map_nil, List.mem_singleton] at hw
    subst hw
    decide
  exact ⟨hres, (no_panic envResolvable hres).1 [(0, 5)] "boom"⟩

theorem sum_div_le (st A : Nat) : ∀ l : List Nat,
    (l.map (fun r => r * st / A)).sum ≤ l.sum * st / A
  | [] => by simp
  | r :: l => by
      simp only [List.map_cons, List.sum_cons]
      calc r * st / A + (l.map (fun r => r * st / A)).sum
          ≤ r * st / A + l.sum * st / A :=
            Nat.add_le_add_left (sum_div_le st A l) _
        _ ≤ (r * st + l.sum * st) / A := Nat.add_div_le_add_div _ _ _
        _ = (r + l.sum) * st / A := by rw [Nat.add_mul]

theorem addToLast_sum : ∀ (l : List (AccountId × Nat)) (x : Nat), l ≠ [] →
    ((addToLast l x).map Prod.snd).sum = (l.map Prod.snd).sum + x
  | [], _, h => absurd rfl h
  | [p], x, _ => by simp [addToLast]
  | p :: q :: ps, x, _ => by
      have ih := addToLast_sum (q :: ps) x (by simp)
      simp only [addToLast, List.map_cons, List.sum_cons, ih]
      omega

theorem into_staked_total (a : Assignment) (stake : Nat)
    (h : (a.distribution.map Prod.snd).sum = ACCURACY) :
    stakedTotal (a.into_staked stake true) = stake := by
  have hne : a.distribution ≠ [] := by
    intro hnil
    rw [hnil] at h
    simp [ACCURACY] at h
  simp only [Assignment.into_staked, stakedTotal, if_true]
  set dist := a.distribution.map (fun p => (p.1, p.2 * stake / ACCURACY)) with hdist
  have hdne : dist ≠ [] := by
    rw [hdist]
    intro hx
    exact hne (List.map_eq_nil_iff.mp hx)
  have hsum : (dist.map Prod.snd).sum
      = ((a.distribution.map Prod.snd).map (fun r => r * stake / ACCURACY)).sum := by
    rw [hdist, List.map_map, List.map_map]
    rfl
  have hle : (dist.map Prod.snd).sum ≤ stake := by
    rw [hsum]
    calc ((a.distribution.map Prod.snd).map (fun r => r * stake / ACCURACY)).sum
        ≤ (a.distribution.map Prod.snd).sum * stake / ACCURACY :=
          sum_div_le stake ACCURACY _
      _ = ACCURACY * stake / ACCURACY := by rw [h]
      _ = stake := Nat.mul_div_cancel_left stake (by decide)
  rw [addToLast_sum dist _ hdne]
  omega

theorem sum_filter_split (t : AccountId) : ∀ l : List (AccountId × Nat),
    ((l.filter (fun p => p.1 == t)).map Prod.snd).sum
      + ((l.filter (fun p => p.1 != t)).map Prod.snd).sum
      = (l.map Prod.snd).sum
  | [] => rfl
  | p :: l => by
      have ih := sum_filter_split t l
      by_cases hpt : p.1 = t
      · simp [List.filter_cons, hpt] at ih ⊢
        omega
      · simp [List.filter_cons, hpt] at ih ⊢
        omega

theorem mergeEdges_sum_aux : ∀ (n : Nat) (l : List (AccountId × Nat)), l.length ≤ n →
    ((mergeEdges l).map Prod.snd).sum = (l.map Prod.snd).sum
  | _, [], _ => by simp [mergeEdges]
  | 0, p :: l, h => by simp at h
  | n + 1, (t, w) :: rest, h => by
      have hlen : (rest.filter (fun p => p.1 != t)).length ≤ n := by
        have h1 : (rest.filter (fun p => p.1 != t)).length ≤ rest.length :=
          List.length_filter_le _ _
        have h2 : rest.length ≤ n := by
          simp only [List.length_cons] at h
          omega
        omega
      have ih := mergeEdges_sum_aux n (rest.filter (fun p => p.1 != t)) hlen
      rw [mergeEdges]
      simp only [List.map_cons, List.sum_cons, ih]
      have hsplit := sum_filter_split t rest
      omega

theorem mergeEdges_sum (l : List (AccountId × Nat)) :
    ((mergeEdges l).map Prod.snd).sum = (l.map Prod.snd).sum :=
  mergeEdges_sum_aux l.length l (le_refl _)

theorem reduce_preserves_totals (l : List StakedAssignment) :
    (reduce l).map (fun sa => (sa.who, stakedTotal sa))
      = l.map (fun sa => (sa.who, stakedTotal sa)) := by
  induction l with
  | nil => rfl
  | cons sa rest ih =>
      simp only [reduce, List.map_cons] at *
      rw [ih]
      have hh : stakedTotal ⟨sa.who, mergeEdges sa.distribution⟩ = stakedTotal sa := by
        simp [stakedTotal, mergeEdges_sum]
      rw [hh]

/-- C9: converting an assignment whose fractional weights sum to one (that
is, to `ACCURACY`) into a staked assignment against the nominator's converted
stake yields staked edge weights summing exactly to that stake — well within
the weight type's rounding tolerance — and the reduction pass preserves every
nominator's identity and total staked weight, so the total equals the
converted stake both before and after `reduce`. -/
theorem stake_conservation (a : Assignment) (stake : Nat)
    (h : (a.distribution.map Prod.snd).sum = ACCURACY) :
    stakedTotal (a.into_staked stake true) = stake ∧
    ∀ l : List StakedAssignment,
      (reduce l).map (fun sa => (sa.who, stakedTotal sa))
        = l.map (fun sa => (sa.who, stakedTotal sa)) :=
  ⟨into_staked_total a stake h, reduce_preserves_totals⟩

/-- C9 witness: a two-edge assignment with weights one half each and stake 3;
the rounding leftover lands on the last edge and the staked total is exactly
3, before and after reduction. -/
theorem stake_conservation_witness :
    stakedTotal (Assignment.into_staked ⟨0, [(1, 500000000), (2, 500000000)]⟩ 3 true) = 3 ∧
    (reduce [Assignment.into_staked ⟨0, [(1, 500000000), (2, 500000000)]⟩ 3 true]).map
        (fun sa => (sa.who, stakedTotal sa))
      = [Assignment.into_staked ⟨0, [(1, 500000000), (2, 500000000)]⟩ 3 true].map
        (fun sa => (sa.who, stakedTotal sa)) :=
  ⟨(stake_conservation ⟨0, [(1, 500000000), (2, 500000000)]⟩ 3 (by decide)).1,
   (stake_conservation ⟨0, [(1, 500000000), (2, 500000000)]⟩ 3 (by decide)).2
     [Assignment.into_staked ⟨0, [(1, 500000000), (2, 500000000)]⟩ 3 true]⟩
